import Mathlib

/-!
Verification of the emulator-save-manager backup/restore/sync engine.

This file shallowly embeds the core of the repository in Lean:

* `app/core/path_resolver.py` — portable-path placeholders (`resolve_path`,
  `to_portable_path`);
* `app/core/conflict.py`     — content hashing (`file_sha256`, `dir_sha256`)
  and `ConflictDetector.detect`;
* `app/core/backup.py`       — `BackupManager` (`create_backup`,
  `list_backups`, `rotate_backups`);
* `app/core/restore.py`      — `RestoreManager.restore_backup` and
  `_resolve_emu_data_path`;
* `app/core/sync.py`         — `SyncManager.push`.

Python strings are modelled as `List Char`, byte strings as `List Nat`
(each element < 256).  Filesystem state is passed explicitly.  SHA-256 is
implemented concretely so that hash-dependent behaviour can be evaluated
on concrete inputs.
-/

set_option maxRecDepth 100000

namespace EmuSave

/-- A Python `str`, modelled as its list of characters. -/
abbrev PyStr := List Char

/-- A Python `bytes`, modelled as a list of byte values. -/
abbrev PyBytes := List Nat

/-! ## SHA-256 (`hashlib.sha256`)

A direct implementation of FIPS 180-4 SHA-256 over byte lists, used by
`file_sha256` / `dir_sha256` in `app/core/conflict.py`.  All arithmetic is
on `Nat` reduced mod `2^32`. -/

/-- `2^32`. -/
def pow32 : Nat := 4294967296

/-- Truncate to 32 bits. -/
def w32 (n : Nat) : Nat := n % pow32

/-- 32-bit right rotation. -/
def rotr32 (n x : Nat) : Nat := w32 ((x >>> n) ||| (x <<< (32 - n)))

/-- Bitwise complement within 32 bits. -/
def not32 (x : Nat) : Nat := x ^^^ 4294967295

def shaCh (x y z : Nat) : Nat := (x &&& y) ^^^ (not32 x &&& z)

def shaMaj (x y z : Nat) : Nat := (x &&& y) ^^^ (x &&& z) ^^^ (y &&& z)

def bigSigma0 (x : Nat) : Nat := rotr32 2 x ^^^ rotr32 13 x ^^^ rotr32 22 x

def bigSigma1 (x : Nat) : Nat := rotr32 6 x ^^^ rotr32 11 x ^^^ rotr32 25 x

def smallSigma0 (x : Nat) : Nat := rotr32 7 x ^^^ rotr32 18 x ^^^ (x >>> 3)

def smallSigma1 (x : Nat) : Nat := rotr32 17 x ^^^ rotr32 19 x ^^^ (x >>> 10)

/-- The 64 SHA-256 round constants. -/
def shaK : List Nat :=
  [1116352408, 1899447441, 3049323471, 3921009573, 961987163, 1508970993, 2453635748, 2870763221,
   3624381080, 310598401, 607225278, 1426881987, 1925078388, 2162078206, 2614888103, 3248222580,
   3835390401, 4022224774, 264347078, 604807628, 770255983, 1249150122, 1555081692, 1996064986,
   2554220882, 2821834349, 2952996808, 3210313671, 3336571891, 3584528711, 113926993, 338241895,
   666307205, 773529912, 1294757372, 1396182291, 1695183700, 1986661051, 2177026350, 2456956037,
   2730485921, 2820302411, 3259730800, 3345764771, 3516065817, 3600352804, 4094571909, 275423344,
   430227734, 506948616, 659060556, 883997877, 958139571, 1322822218, 1537002063, 1747873779,
   1955562222, 2024104815, 2227730452, 2361852424, 2428436474, 2756734187, 3204031479, 3329325298]

/-- The SHA-256 working state: eight 32-bit words. -/
structure Hash8 where
  a : Nat
  b : Nat
  c : Nat
  d : Nat
  e : Nat
  f : Nat
  g : Nat
  h : Nat

/-- The SHA-256 initial hash value. -/
def shaInit : Hash8 :=
  ⟨1779033703, 3144134277, 1013904242, 2773480762, 1359893119, 2600822924, 528734635, 1541459225⟩

/-- Group bytes into 32-bit big-endian words. -/
def bytesToWords : PyBytes → List Nat
  | a :: b :: c :: d :: rest => (a * 16777216 + b * 65536 + c * 256 + d) :: bytesToWords rest
  | _ => []

/-- Extend the 16 message words to 64.  The accumulator is kept reversed so
that the four taps `w[t-2]`, `w[t-7]`, `w[t-15]`, `w[t-16]` are at indices
1, 6, 14, 15 from the head. -/
def scheduleAux : Nat → List Nat → List Nat
  | 0, acc => acc
  | n + 1, acc =>
    let g := fun i => acc.getD i 0
    scheduleAux n
      (w32 (smallSigma1 (g 1) + g 6 + smallSigma0 (g 14) + g 15) :: acc)

/-- The 64-entry message schedule of one block. -/
def schedule (w16 : List Nat) : List Nat := (scheduleAux 48 w16.reverse).reverse

/-- One SHA-256 compression round. -/
def shaRound (s : Hash8) (kw : Nat × Nat) : Hash8 :=
  let t1 := w32 (s.h + bigSigma1 s.e + shaCh s.e s.f s.g + kw.1 + kw.2)
  let t2 := w32 (bigSigma0 s.a + shaMaj s.a s.b s.c)
  ⟨w32 (t1 + t2), s.a, s.b, s.c, w32 (s.d + t1), s.e, s.f, s.g⟩

/-- Compress one 64-byte block into the running hash. -/
def compressBlock (hv : Hash8) (block : PyBytes) : Hash8 :=
  let ws := schedule (bytesToWords block)
  let s := (shaK.zip ws).foldl shaRound hv
  ⟨w32 (hv.a + s.a), w32 (hv.b + s.b), w32 (hv.c + s.c), w32 (hv.d + s.d),
   w32 (hv.e + s.e), w32 (hv.f + s.f), w32 (hv.g + s.g), w32 (hv.h + s.h)⟩

/-- Big-endian bytes of a 32-bit word. -/
def wordBytes (n : Nat) : PyBytes :=
  [n / 16777216 % 256, n / 65536 % 256, n / 256 % 256, n % 256]

/-- Big-endian 8-byte encoding of the bit length. -/
def lenBytes8 (n : Nat) : PyBytes :=
  [n / 72057594037927936 % 256, n / 281474976710656 % 256, n / 1099511627776 % 256,
   n / 4294967296 % 256, n / 16777216 % 256, n / 65536 % 256, n / 256 % 256, n % 256]

/-- SHA-256 padding: append `128`, zeros to 56 mod 64, then the bit length. -/
def padMessage (m : PyBytes) : PyBytes :=
  m ++ 128 :: List.replicate ((119 - m.length % 64) % 64) 0 ++ lenBytes8 (8 * m.length)

/-- Split into 64-byte blocks (fuelled so the definition is structural and
reduces in the kernel). -/
def chunksAux : Nat → PyBytes → List PyBytes
  | 0, _ => []
  | _ + 1, [] => []
  | n + 1, x :: rest => ((x :: rest).take 64) :: chunksAux n ((x :: rest).drop 64)

def chunks64 (l : PyBytes) : List PyBytes := chunksAux l.length l

/-- The 32-byte SHA-256 digest of a byte string. -/
def sha256 (msg : PyBytes) : PyBytes :=
  let fin := (chunks64 (padMessage msg)).foldl compressBlock shaInit
  wordBytes fin.a ++ wordBytes fin.b ++ wordBytes fin.c ++ wordBytes fin.d ++
  wordBytes fin.e ++ wordBytes fin.f ++ wordBytes fin.g ++ wordBytes fin.h

/-- Lowercase hex character of a value < 16 (as `hexdigest` produces). -/
def hexChar (n : Nat) : Char := if n < 10 then Char.ofNat (48 + n) else Char.ofNat (87 + n)

/-- Lowercase hex string of a byte list. -/
def bytesToHex (bs : PyBytes) : PyStr :=
  bs.flatMap fun b => [hexChar (b / 16), hexChar (b % 16)]

/-- `hashlib.sha256(msg).hexdigest()`. -/
def sha256_hexdigest (msg : PyBytes) : PyStr := bytesToHex (sha256 msg)

/-- NIST test vector: the digest of the empty message. -/
theorem sha256_empty_vector :
    sha256_hexdigest [] = "e3b0c44298fc1c149afbf4c8996fb92427ae41e4649b934ca495991b7852b855".data := by
  decide

/-- NIST test vector: the digest of "abc". -/
theorem sha256_abc_vector :
    sha256_hexdigest [97, 98, 99]
      = "ba7816bf8f01cfea414140de5dae2223b00361a396177a9cb410ff61f20015ad".data := by
  decide

/-! ## Python string and list helpers -/

/-- ASCII lower-casing of one character (sufficient for the ASCII drive/user
paths handled by the resolver; `str.lower`). -/
def asciiLower (c : Char) : Char :=
  if 'A' ≤ c ∧ c ≤ 'Z' then Char.ofNat (c.toNat + 32) else c

/-- `str.lower()`. -/
def pyLower (s : PyStr) : PyStr := s.map asciiLower

/-- `str.lstrip("/")`. -/
def lstripSlash (s : PyStr) : PyStr := s.dropWhile (· = '/')

/-- `str.lstrip("\\")`. -/
def lstripBackslash (s : PyStr) : PyStr := s.dropWhile (· = '\\')

/-- `str.replace("\\", "/")`. -/
def replaceBackslash (s : PyStr) : PyStr := s.map fun c => if c = '\\' then '/' else c

/-- Stable insertion used by `pySorted`: an element moves past exactly the
elements strictly below it, as Python's stable `list.sort` does. -/
def pyInsort (lt : α → α → Bool) (x : α) : List α → List α
  | [] => [x]
  | y :: ys => if lt y x then y :: pyInsort lt x ys else x :: y :: ys

/-- Python's `sorted(l)` for a strict comparison `lt` (`__lt__`): a stable
ascending sort.  `sorted(l, key=k, reverse=True)` is `pySorted (fun a b =>
k b < k a) l`. -/
def pySorted (lt : α → α → Bool) : List α → List α
  | [] => []
  | x :: xs => pyInsort lt x (pySorted lt xs)

theorem pyInsort_perm (lt : α → α → Bool) (x : α) (l : List α) :
    (pyInsort lt x l).Perm (x :: l) := by
  induction l with
  | nil => simp [pyInsort]
  | cons y ys ih =>
    by_cases h : lt y x = true
    · simpa [pyInsort, h] using ((ih.cons y).trans (List.Perm.swap x y ys))
    · simp [pyInsort, h]

theorem pySorted_perm (lt : α → α → Bool) (l : List α) : (pySorted lt l).Perm l := by
  induction l with
  | nil => simp [pySorted]
  | cons x xs ih => exact (pyInsort_perm lt x (pySorted lt xs)).trans (ih.cons x)

theorem mem_pySorted {lt : α → α → Bool} {l : List α} {a : α} :
    a ∈ pySorted lt l ↔ a ∈ l :=
  (pySorted_perm lt l).mem_iff

/-- `l₁.isPrefixOf l₂` holds exactly when `l₂` extends `l₁`. -/
theorem isPrefixOf_iff_append {l₁ l₂ : List Char} :
    l₁.isPrefixOf l₂ = true ↔ ∃ t, l₂ = l₁ ++ t := by
  induction l₁ generalizing l₂ with
  | nil => simp [List.isPrefixOf]
  | cons a as ih =>
    cases l₂ with
    | nil => simp [List.isPrefixOf]
    | cons b bs =>
      simp only [List.isPrefixOf, Bool.and_eq_true, beq_iff_eq, ih, List.cons_append,
        List.cons.injEq]
      constructor
      · rintro ⟨rfl, t, rfl⟩; exact ⟨t, rfl, rfl⟩
      · rintro ⟨t, rfl, rfl⟩; exact ⟨rfl, t, rfl⟩

/-- If `l₁` is a prefix of `l₂ ++ s` then `l₁` and `l₂` are comparable. -/
theorem append_eq_append_cases {l₁ l₂ s t : List Char} :
    l₂ ++ s = l₁ ++ t → (∃ u, l₁ = l₂ ++ u) ∨ (∃ u, l₂ = l₁ ++ u) := by
  induction l₂ generalizing l₁ with
  | nil => intro _; exact Or.inl ⟨l₁, rfl⟩
  | cons c cs ih =>
    intro h
    cases l₁ with
    | nil => exact Or.inr ⟨c :: cs, rfl⟩
    | cons d ds =>
      simp only [List.cons_append, List.cons.injEq] at h
      obtain ⟨rfl, h2⟩ := h
      rcases ih h2 with ⟨u, hu⟩ | ⟨u, hu⟩
      · exact Or.inl ⟨u, by simp [hu]⟩
      · exact Or.inr ⟨u, by simp [hu]⟩

/-- No two consecutive forward slashes (one aspect of a normalised path). -/
def noDoubleSlash : PyStr → Bool
  | c :: d :: rest => if c = '/' ∧ d = '/' then false else noDoubleSlash (d :: rest)
  | _ => true

theorem noDoubleSlash_append_false (a : PyStr) (s : PyStr) :
    noDoubleSlash (a ++ '/' :: '/' :: s) = false := by
  induction a with
  | nil => simp [noDoubleSlash]
  | cons c cs ih =>
    cases cs with
    | nil => simp only [List.nil_append, List.cons_append, noDoubleSlash]; split <;>
        simp_all [noDoubleSlash]
    | cons d ds => simp only [List.cons_append, noDoubleSlash] at ih ⊢; split <;> simp_all

/-! ## `app/core/path_resolver.py`

The real directory lookups (`get_documents_dir`, `get_appdata_dir`,
`get_localappdata_dir`, `get_home_dir`) read the environment once per
process; a `Machine` value records their four results.  `str(Path(x))`
is modelled as the identity: the theorems below quantify over paths that
are already in normalised forward-slash form, on which Python's `Path`
round-trips textually (after the source's `.replace("\\", "/")`). -/

/-- The four cached OS roots of the machine the process runs on. -/
structure Machine where
  documents : PyStr
  appdata : PyStr
  localappdata : PyStr
  home : PyStr

def DOCUMENTS_PLACEHOLDER : PyStr := "${DOCUMENTS}".data
def APPDATA_PLACEHOLDER : PyStr := "${APPDATA}".data
def LOCALAPPDATA_PLACEHOLDER : PyStr := "${LOCALAPPDATA}".data
def HOME_PLACEHOLDER : PyStr := "${HOME}".data

/-- The placeholder table in source order (`_placeholder_map`, before
sorting). -/
def placeholderEntries (m : Machine) : List (PyStr × PyStr) :=
  [(DOCUMENTS_PLACEHOLDER, m.documents),
   (APPDATA_PLACEHOLDER, m.appdata),
   (LOCALAPPDATA_PLACEHOLDER, m.localappdata),
   (HOME_PLACEHOLDER, m.home)]

/-- `_placeholder_map()`: entries sorted by real-path length, longest
first (`entries.sort(key=lambda x: len(str(x[1])), reverse=True)`, a
stable sort). -/
def placeholder_map (m : Machine) : List (PyStr × PyStr) :=
  pySorted (fun a b => b.2.length < a.2.length) (placeholderEntries m)

/-- `pathlib`'s `real / rest` for a normalised absolute `real` (no trailing
separator) and a relative `rest` with no leading separator; an empty `rest`
is dropped by `PurePath`. -/
def pyJoin (a b : PyStr) : PyStr := if b = [] then a else a ++ '/' :: b

/-- The scan inside `resolve_path`: first entry whose placeholder starts
the string wins; with no match the string is returned as is
(`return Path(portable)`). -/
def resolveScan : List (PyStr × PyStr) → PyStr → PyStr
  | [], portable => portable
  | (ph, real) :: rest, portable =>
    if ph.isPrefixOf portable then
      pyJoin real (lstripBackslash (lstripSlash (portable.drop ph.length)))
    else resolveScan rest portable

/-- `resolve_path(portable)` — note the source function takes exactly one
parameter and knows only the four static placeholders. -/
def resolve_path (m : Machine) (portable : PyStr) : PyStr :=
  resolveScan (placeholder_map m) portable

/-- The scan inside `to_portable_path`: first entry whose real path is a
case-insensitive prefix of the (forward-slashed) input wins. -/
def portableScan : List (PyStr × PyStr) → PyStr → PyStr
  | [], abs_str => abs_str
  | (ph, real) :: rest, abs_str =>
    let real_str := replaceBackslash real
    if (pyLower real_str).isPrefixOf (pyLower abs_str) then
      let r := lstripSlash (abs_str.drop real_str.length)
      if r = [] then ph else ph ++ '/' :: r
    else portableScan rest abs_str

/-- `to_portable_path(absolute)`. -/
def to_portable_path (m : Machine) (absolute : PyStr) : PyStr :=
  portableScan (placeholder_map m) (replaceBackslash absolute)

/-! ### Analysis of the two scans -/

theorem replaceBackslash_id {s : PyStr} (h : ∀ c ∈ s, c ≠ '\\') :
    replaceBackslash s = s := by
  induction s with
  | nil => rfl
  | cons c cs ih =>
    simp only [replaceBackslash, List.map_cons] at ih ⊢
    rw [if_neg (h c (by simp)), ih fun d hd => h d (by simp [hd])]

theorem resolveScan_nomatch (ℓ : List (PyStr × PyStr)) (p : PyStr)
    (h : ∀ e ∈ ℓ, e.1.isPrefixOf p = false) :
    resolveScan ℓ p = p := by
  induction ℓ with
  | nil => rfl
  | cons e rest ih =>
    obtain ⟨ph, r⟩ := e
    simp only [resolveScan]
    rw [if_neg (by simp [h (ph, r) (by simp)]), ih fun e he => h e (by simp [he])]

theorem resolveScan_mem (ℓ : List (PyStr × PyStr)) (ph r portable : PyStr)
    (hmem : (ph, r) ∈ ℓ) (hpre : ph.isPrefixOf portable = true)
    (hother : ∀ e ∈ ℓ, e.1 ≠ ph → e.1.isPrefixOf portable = false)
    (huniq : (ℓ.map Prod.fst).Nodup) :
    resolveScan ℓ portable
      = pyJoin r (lstripBackslash (lstripSlash (portable.drop ph.length))) := by
  induction ℓ with
  | nil => simp at hmem
  | cons e₀ rest ih =>
    obtain ⟨ph₀, r₀⟩ := e₀
    rcases List.mem_cons.mp hmem with heq | hmem'
    · obtain ⟨rfl, rfl⟩ := Prod.mk.injEq .. ▸ heq
      simp only [resolveScan]
      rw [if_pos hpre]
    · rw [List.map_cons] at huniq
      have hu2 := List.nodup_cons.mp huniq
      by_cases hp0 : ph₀ = ph
      · exfalso
        have h1 : ph ∈ rest.map Prod.fst := List.mem_map.mpr ⟨(ph, r), hmem', rfl⟩
        exact hu2.1 (hp0 ▸ h1)
      · simp only [resolveScan]
        rw [if_neg (by simp [hother (ph₀, r₀) (by simp) hp0])]
        exact ih hmem' (fun e he hne => hother e (by simp [he]) hne) hu2.2

theorem portableScan_under (ℓ : List (PyStr × PyStr)) (p : PyStr)
    (hrb : ∀ e ∈ ℓ, replaceBackslash e.2 = e.2)
    (hB : ∀ e ∈ ℓ, (pyLower e.2).isPrefixOf (pyLower p) = true →
            p = e.2 ∨ (e.2 ++ ['/']).isPrefixOf p = true)
    (hnds : noDoubleSlash p = true)
    (hnt : p.getLast? ≠ some '/')
    (hmatch : ∃ e ∈ ℓ, (pyLower e.2).isPrefixOf (pyLower p) = true) :
    ∃ e ∈ ℓ, (portableScan ℓ p = e.1 ∧ p = e.2) ∨
      ∃ t, portableScan ℓ p = e.1 ++ '/' :: t ∧ p = e.2 ++ '/' :: t ∧
        t ≠ [] ∧ t.head? ≠ some '/' := by
  induction ℓ with
  | nil => simp at hmatch
  | cons e₀ rest ih =>
    obtain ⟨ph, r⟩ := e₀
    have hr : replaceBackslash r = r := hrb (ph, r) (by simp)
    by_cases hm : (pyLower r).isPrefixOf (pyLower p) = true
    · rcases hB (ph, r) (by simp) hm with hpr | hpr
      · refine ⟨(ph, r), by simp, Or.inl ⟨?_, hpr⟩⟩
        simp only [portableScan, hr, hm, if_pos]
        have hd : p.drop r.length = [] := by rw [hpr]; exact List.drop_length r
        simp [hd, lstripSlash]
      · obtain ⟨u, hu⟩ := isPrefixOf_iff_append.mp hpr
        have hp : p = r ++ '/' :: u := by simpa using hu
        have hune : u ≠ [] := by
          rintro rfl
          exact hnt (by rw [hp]; exact List.getLast?_concat r)
        have huh : u.head? ≠ some '/' := by
          intro hh
          obtain ⟨u', rfl⟩ : ∃ u', u = '/' :: u' := by
            cases u with
            | nil => simp at hh
            | cons a u' =>
              have ha : a = '/' := by simpa using hh
              exact ⟨u', by rw [ha]⟩
          rw [hp, noDoubleSlash_append_false] at hnds
          exact Bool.false_ne_true hnds
        refine ⟨(ph, r), by simp, Or.inr ⟨u, ?_, hp, hune, huh⟩⟩
        simp only [portableScan, hr, hm, if_pos]
        have hd : p.drop r.length = '/' :: u := by rw [hp]; exact List.drop_left r _
        have hls : lstripSlash ('/' :: u) = u := by
          cases u with
          | nil => simp at hune
          | cons a u' =>
            have ha : a ≠ '/' := by simpa using huh
            simp [lstripSlash, List.dropWhile, ha]
        rw [hd, hls, if_neg hune]
    · have hstep : portableScan ((ph, r) :: rest) p = portableScan rest p := by
        simp only [portableScan, hr]
        rw [if_neg hm]
      obtain ⟨e₁, he₁, hm₁⟩ := hmatch
      rcases List.mem_cons.mp he₁ with heq | hmem'
      · rw [heq] at hm₁; exact absurd hm₁ hm
      · obtain ⟨e, he, hout⟩ := ih (fun e he => hrb e (by simp [he]))
          (fun e he h => hB e (by simp [he]) h) ⟨e₁, hmem', hm₁⟩
        exact ⟨e, by simp [he], hstep ▸ hout⟩

/-- The placeholder tokens of the resolver. -/
def fourPlaceholders : List PyStr :=
  [DOCUMENTS_PLACEHOLDER, APPDATA_PLACEHOLDER, LOCALAPPDATA_PLACEHOLDER, HOME_PLACEHOLDER]

theorem placeholders_pairwise :
    ∀ p₁ ∈ fourPlaceholders, ∀ p₂ ∈ fourPlaceholders, p₁ ≠ p₂ →
      p₁.isPrefixOf p₂ = false := by decide

theorem placeholders_nodup : fourPlaceholders.Nodup := by decide

theorem mem_entries_fst {m : Machine} {e : PyStr × PyStr}
    (he : e ∈ placeholderEntries m) : e.1 ∈ fourPlaceholders := by
  simp only [placeholderEntries, List.mem_cons, List.not_mem_nil, or_false] at he
  rcases he with rfl | rfl | rfl | rfl <;> simp [fourPlaceholders]

theorem mem_placeholder_map {m : Machine} {e : PyStr × PyStr} :
    e ∈ placeholder_map m ↔ e ∈ placeholderEntries m := mem_pySorted

theorem placeholder_map_fst_nodup (m : Machine) :
    ((placeholder_map m).map Prod.fst).Nodup := by
  have hperm : ((placeholder_map m).map Prod.fst).Perm
      ((placeholderEntries m).map Prod.fst) :=
    (pySorted_perm _ _).map Prod.fst
  have : ((placeholderEntries m).map Prod.fst).Nodup := by
    show fourPlaceholders.Nodup
    exact placeholders_nodup
  exact hperm.nodup_iff.mpr this

/-- **C1 (amended)** — Round-trip portability as far as the code provides it:
`resolve_path (to_portable_path p) = p` for every normalised forward-slash
path `p` that lies under a known root, **provided** every root whose real
path is a case-insensitive string prefix of `p` matches `p` exactly and at
a path-component boundary.  (The unamended claim fails: `to_portable_path`
matches roots as raw string prefixes, so a root can swallow part of a
sibling directory's name — see the counterexample.) -/
theorem c1_roundtrip (m : Machine) (p : PyStr)
    (hpb : ∀ c ∈ p, c ≠ '\\')
    (hrb : ∀ e ∈ placeholderEntries m, ∀ c ∈ e.2, c ≠ '\\')
    (hnds : noDoubleSlash p = true)
    (hnt : p.getLast? ≠ some '/')
    (hB : ∀ e ∈ placeholderEntries m, (pyLower e.2).isPrefixOf (pyLower p) = true →
            p = e.2 ∨ (e.2 ++ ['/']).isPrefixOf p = true)
    (hunder : ∃ e ∈ placeholderEntries m,
        p = e.2 ∨ (e.2 ++ ['/']).isPrefixOf p = true) :
    resolve_path m (to_portable_path m p) = p := by
  have hid : replaceBackslash p = p := replaceBackslash_id hpb
  obtain ⟨e₀, he₀, hcase⟩ := hunder
  have hm₀ : (pyLower e₀.2).isPrefixOf (pyLower p) = true := by
    rcases hcase with rfl | hpr
    · exact isPrefixOf_iff_append.mpr ⟨[], by simp⟩
    · obtain ⟨u, hu⟩ := isPrefixOf_iff_append.mp hpr
      exact isPrefixOf_iff_append.mpr
        ⟨pyLower ('/' :: u), by rw [hu]; simp [pyLower]⟩
  obtain ⟨e, he, hout⟩ := portableScan_under (placeholder_map m) p
    (fun e he => replaceBackslash_id (hrb e (mem_placeholder_map.mp he)))
    (fun e he h => hB e (mem_placeholder_map.mp he) h) hnds hnt
    ⟨e₀, mem_placeholder_map.mpr he₀, hm₀⟩
  have hfst : e.1 ∈ fourPlaceholders := mem_entries_fst (mem_placeholder_map.mp he)
  have hscan : to_portable_path m p = portableScan (placeholder_map m) p := by
    rw [to_portable_path, hid]
  rcases hout with ⟨hval, hpe⟩ | ⟨t, hval, hpe, htne, hth⟩
  · -- p is exactly the real root: the portable string is the bare placeholder
    rw [resolve_path, hscan, hval]
    rw [resolveScan_mem (placeholder_map m) e.1 e.2 e.1
      (by simpa using he) (isPrefixOf_iff_append.mpr ⟨[], by simp⟩)
      (fun e' he' hne => placeholders_pairwise e'.1
        (mem_entries_fst (mem_placeholder_map.mp he')) e.1 hfst hne)
      (placeholder_map_fst_nodup m)]
    simp [List.drop_length, lstripSlash, lstripBackslash, pyJoin, hpe]
  · rw [resolve_path, hscan, hval]
    have hother : ∀ e' ∈ placeholder_map m, e'.1 ≠ e.1 →
        e'.1.isPrefixOf (e.1 ++ '/' :: t) = false := by
      intro e' he' hne
      cases hx : e'.1.isPrefixOf (e.1 ++ '/' :: t) with
      | false => rfl
      | true =>
        exfalso
        obtain ⟨u, hu⟩ := isPrefixOf_iff_append.mp hx
        have hf' : e'.1 ∈ fourPlaceholders := mem_entries_fst (mem_placeholder_map.mp he')
        rcases append_eq_append_cases hu with ⟨v, hv⟩ | ⟨v, hv⟩
        · have h1 : e.1.isPrefixOf e'.1 = true := isPrefixOf_iff_append.mpr ⟨v, hv⟩
          rw [placeholders_pairwise e.1 hfst e'.1 hf' (Ne.symm hne)] at h1
          exact Bool.false_ne_true h1
        · have h1 : e'.1.isPrefixOf e.1 = true := isPrefixOf_iff_append.mpr ⟨v, hv⟩
          rw [placeholders_pairwise e'.1 hf' e.1 hfst hne] at h1
          exact Bool.false_ne_true h1
    rw [resolveScan_mem (placeholder_map m) e.1 e.2 (e.1 ++ '/' :: t)
      (by simpa using he) (isPrefixOf_iff_append.mpr ⟨'/' :: t, rfl⟩)
      hother (placeholder_map_fst_nodup m)]
    have hd : (e.1 ++ '/' :: t).drop e.1.length = '/' :: t := List.drop_left e.1 _
    have hls : lstripSlash ('/' :: t) = t := by
      cases t with
      | nil => simp at htne
      | cons a t' =>
        have ha : a ≠ '/' := by simpa using hth
        simp [lstripSlash, List.dropWhile, ha]
    have hlb : lstripBackslash t = t := by
      cases t with
      | nil => rfl
      | cons a t' =>
        have ha : a ≠ '\\' := by
          have : a ∈ p := by rw [hpe]; simp
          exact hpb a this
        simp [lstripBackslash, List.dropWhile, ha]
    rw [hd, hls, hlb, pyJoin, if_neg htne, hpe]

/-- The machine used in the C1 counterexample and witness: the default
layout in which the Documents root sits directly below the home root. -/
def cxMachine : Machine :=
  { documents := "/home/u/Documents".data,
    appdata := "/home/u".data,
    localappdata := "/home/u".data,
    home := "/home/u".data }

/-- **C1 (counterexample)** — `/home/u/DocumentsX` lies under the known
home root `/home/u`, yet the round trip returns `/home/u/Documents/X`:
`to_portable_path` matches the Documents root as a raw string prefix even
though `Documents` is not a whole path component of the input. -/
theorem c1_roundtrip_counterexample :
    "/home/u/DocumentsX".data = cxMachine.home ++ '/' :: "DocumentsX".data ∧
    resolve_path cxMachine (to_portable_path cxMachine "/home/u/DocumentsX".data)
      = "/home/u/Documents/X".data ∧
    resolve_path cxMachine (to_portable_path cxMachine "/home/u/DocumentsX".data)
      ≠ "/home/u/DocumentsX".data := by
  refine ⟨by decide, by decide, by decide⟩

/-- **C1 (witness)** — the amended round-trip theorem applied to the
concrete path `/home/u/Documents/PCSX2/card.ps2` on `cxMachine`. -/
theorem c1_roundtrip_witness :
    resolve_path cxMachine
        (to_portable_path cxMachine "/home/u/Documents/PCSX2/card.ps2".data)
      = "/home/u/Documents/PCSX2/card.ps2".data :=
  c1_roundtrip cxMachine "/home/u/Documents/PCSX2/card.ps2".data
    (by decide) (by decide) (by decide) (by decide) (by decide) (by decide)

/-! ## `app/core/conflict.py`

Files and directories are modelled explicitly.  A directory is recorded
together with the list of its descendants as `Path.rglob("*")` would
enumerate them: each descendant carries its relative path components, a
file/directory flag, its byte content and its stat mtime. -/

/-- One entry of `dir.rglob("*")`. -/
structure DirEntry where
  parts : List PyStr
  is_file : Bool
  content : PyBytes
  mtime : Int
  deriving DecidableEq

/-- A filesystem node: a regular file or a directory with its
(recursively enumerated) entries. -/
inductive FSNode where
  | file (content : PyBytes) (mtime : Int)
  | dir (mtime : Int) (entries : List DirEntry)
  deriving DecidableEq

def FSNode.isDir : FSNode → Bool
  | .dir _ _ => true
  | .file _ _ => false

/-- Python `str` comparison (`<` by code point). -/
def strLt : PyStr → PyStr → Bool
  | [], [] => false
  | [], _ :: _ => true
  | _ :: _, [] => false
  | a :: as, b :: bs => if a < b then true else if b < a then false else strLt as bs

/-- `PurePath` comparison: lexicographic on the tuple of components. -/
def partsLt : List PyStr → List PyStr → Bool
  | [], [] => false
  | [], _ :: _ => true
  | _ :: _, [] => false
  | a :: as, b :: bs => if strLt a b then true else if strLt b a then false else partsLt as bs

/-- `sorted(dir_path.rglob("*"))`: path objects sorted ascending. -/
def sortedEntries (es : List DirEntry) : List DirEntry :=
  pySorted (fun a b => partsLt a.parts b.parts) es

/-- `file_sha256(path)`: a streaming SHA-256 of the file bytes (feeding
`hashlib` in 8192-byte chunks hashes exactly the byte sequence).  `open()`
on a directory raises, the `except` branch returns `""`. -/
def file_sha256 : FSNode → PyStr
  | .file c _ => sha256_hexdigest c
  | .dir _ _ => []

/-- `dir_sha256(dir_path)`: one running SHA-256 updated with the bytes of
every regular file under the directory, in sorted path order.  `rglob`
over a non-directory yields no entries, so the digest of a file node is
the digest of the empty byte string. -/
def dir_sha256 : FSNode → PyStr
  | .file _ _ => sha256_hexdigest []
  | .dir _ es =>
    sha256_hexdigest
      ((sortedEntries es).foldl (fun h e => if e.is_file then h ++ e.content else h) [])

/-- `ConflictInfo` (dataclass). -/
structure ConflictInfo where
  game_id : PyStr
  emulator : PyStr
  relative_path : PyStr
  local_path : PyStr
  remote_path : PyStr
  local_mtime : Int
  remote_mtime : Int
  local_hash : PyStr
  remote_hash : PyStr
  remote_machine : PyStr
  deriving DecidableEq

/-- `ConflictInfo.is_real_conflict`. -/
def ConflictInfo.is_real_conflict (c : ConflictInfo) : Bool :=
  decide (¬ c.local_hash = c.remote_hash)

/-- `max((f.stat().st_mtime for f in p.rglob("*") if f.is_file()), default=0)`. -/
def maxFileMtime : FSNode → Int
  | .file _ _ => 0
  | .dir _ es =>
    match (es.filter (·.is_file)).map (·.mtime) with
    | [] => 0
    | x :: xs => xs.foldl max x

/-- `path.stat().st_mtime` of the node itself. -/
def nodeMtime : FSNode → Int
  | .file _ t => t
  | .dir t _ => t

/-- Split a string at `/`. -/
def splitSlash : PyStr → List PyStr
  | [] => [[]]
  | c :: cs =>
    match splitSlash cs with
    | h :: t => if c = '/' then [] :: h :: t else (c :: h) :: t
    | [] => [[]]

/-- `Path(p).name`: the final non-empty component. -/
def pathName (p : PyStr) : PyStr :=
  (((splitSlash p).filter (fun s => !s.isEmpty)).getLast?).getD []

/-- `ConflictDetector.detect(local_path, remote_path, game_id, emulator,
remote_machine)`.  Existence tests are modelled by passing `Option`: the
node found at each path, or `none` when the path does not exist. -/
def detect (local_path remote_path game_id emulator remote_machine : PyStr)
    (localNode remoteNode : Option FSNode) : Option ConflictInfo :=
  match localNode, remoteNode with
  | some l, some r =>
    match
      (if l.isDir then (dir_sha256 l, dir_sha256 r, maxFileMtime l, maxFileMtime r)
       else (file_sha256 l, file_sha256 r, nodeMtime l, nodeMtime r)) with
    | (local_hash, remote_hash, local_mtime, remote_mtime) =>
      if local_hash = remote_hash then none
      else some
        { game_id := game_id
          emulator := emulator
          relative_path := pathName local_path
          local_path := local_path
          remote_path := remote_path
          local_mtime := local_mtime
          remote_mtime := remote_mtime
          local_hash := local_hash
          remote_hash := remote_hash
          remote_machine := remote_machine }
  | _, _ => none

/-- The pair of hashes `detect` compares (branching on whether the local
side is a directory, as the source does). -/
def detectHashes : Option FSNode → Option FSNode → PyStr × PyStr
  | some l, some r =>
    if l.isDir then (dir_sha256 l, dir_sha256 r) else (file_sha256 l, file_sha256 r)
  | _, _ => ([], [])

/-- **C6** — Conflict exactly on divergence: `detect` returns `none` iff a
side is missing or the compared content hashes agree; every returned
`ConflictInfo` carries exactly the compared hashes, and they differ. -/
theorem c6_detect_iff_divergence (lp rp g e rm : PyStr) (l r : Option FSNode) :
    (detect lp rp g e rm l r = none ↔
      l = none ∨ r = none ∨ (detectHashes l r).1 = (detectHashes l r).2) ∧
    (∀ c, detect lp rp g e rm l r = some c →
      c.local_hash = (detectHashes l r).1 ∧ c.remote_hash = (detectHashes l r).2 ∧
        ¬ c.local_hash = c.remote_hash) := by
  cases l with
  | none => simp [detect, detectHashes]
  | some ln =>
    cases r with
    | none => simp [detect, detectHashes]
    | some rn =>
      by_cases hd : ln.isDir = true
      · by_cases hh : dir_sha256 ln = dir_sha256 rn <;>
          simp_all [detect, detectHashes]
      · by_cases hh : file_sha256 ln = file_sha256 rn <;>
          simp_all [detect, detectHashes]

/-- **C6 (witness)** — applied with a missing local side. -/
theorem c6_detect_witness :
    detect [] [] [] [] [] none (some (.file [] 0)) = none :=
  (c6_detect_iff_divergence [] [] [] [] [] none (some (.file [] 0))).1.mpr (Or.inl rfl)

/-! ### C10 — what `dir_sha256` actually hashes -/

theorem foldl_filter_append (c : DirEntry → PyBytes) (p : DirEntry → Bool)
    (l : List DirEntry) (acc : PyBytes) :
    l.foldl (fun h e => if p e then h ++ c e else h) acc
      = acc ++ ((l.filter p).map c).flatten := by
  induction l generalizing acc with
  | nil => simp
  | cons e es ih =>
    by_cases hp : p e = true <;> simp [List.filter_cons, hp, ih, List.append_assoc]

/-- The regular files under a node, in the sorted enumeration order. -/
def sortedFiles : FSNode → List DirEntry
  | .file _ _ => []
  | .dir _ es => (sortedEntries es).filter (·.is_file)

/-- **C10 (amended)** — the directory digest is the SHA-256 of the
concatenation of the files' raw contents (files sorted by path), not of
their per-file digests. -/
theorem c10_dir_hash_of_contents (n : FSNode) :
    dir_sha256 n = sha256_hexdigest ((sortedFiles n).map (·.content)).flatten := by
  cases n with
  | file c t => simp [dir_sha256, sortedFiles]
  | dir t es => simp [dir_sha256, sortedFiles, foldl_filter_append]

/-- Modelled from the spec: `hash_tree(dir)` as the spec words it — "hash
of the concatenation of `hash_file` over every file under the directory,
file list sorted by path".  Digest strings are concatenated and the result
is hashed as ASCII bytes. -/
def hash_tree_spec (n : FSNode) : PyStr :=
  sha256_hexdigest
    (((sortedFiles n).map (fun e => sha256_hexdigest e.content)).flatten.map Char.toNat)

/-- **C10 (counterexample)** — for a directory holding a single empty file
`a`, the code's digest is `sha256("")` while the spec's wording demands
`sha256(hexdigest(sha256("")))`; the two differ. -/
theorem c10_dir_hash_counterexample :
    dir_sha256 (.dir 0 [⟨[['a']], true, [], 0⟩])
      ≠ hash_tree_spec (.dir 0 [⟨[['a']], true, [], 0⟩]) := by
  decide

/-! ## `app/models/game_save.py` and `app/models/backup_record.py` -/

/-- `SaveType`. -/
inductive SaveType where
  | memcard
  | battery
  | savestate
  | folder
  | file
  deriving DecidableEq

/-- `SaveFile` (dataclass). -/
structure SaveFile where
  path : PyStr
  save_type : SaveType
  size : Nat
  modified : Int
  deriving DecidableEq

/-- `GameSave` (dataclass): exactly the fields declared in
`app/models/game_save.py` — in particular there is **no** `data_path`
field. -/
structure GameSave where
  emulator : PyStr
  game_name : PyStr
  game_id : PyStr
  save_files : List SaveFile
  platform : PyStr
  crc32 : PyStr
  deriving DecidableEq

/-- A Python exception, by class. -/
inductive PyErr where
  | valueError
  | attributeError
  | typeError
  | fileExistsError
  deriving DecidableEq

/-! ## `app/core/backup.py` (`BackupManager`)

The backup tree of one `(emulator, game_id)` pair is the list of its
stored archives: each has the timestamp stem `name` (shared by
`{name}.zip` and `{name}.json`) and, when the sidecar exists and parses,
its metadata. -/

/-- The sidecar fields `list_backups` reads. -/
structure BackupMeta where
  is_pinned : Bool
  label : PyStr
  deriving DecidableEq

/-- One `{name}.zip` in the game directory, with its optional sidecar. -/
structure StoredBackup where
  name : PyStr
  meta : Option BackupMeta
  deriving DecidableEq

/-- `BackupRecord` as `list_backups` builds it (the fields the engine
reads back: identity, pin state, label, positional version). -/
structure BackupRecord where
  name : PyStr
  is_pinned : Bool
  label : PyStr
  version : Nat
  deriving DecidableEq

def toRecord (b : StoredBackup) : BackupRecord :=
  match b.meta with
  | some mt => ⟨b.name, mt.is_pinned, mt.label, 1⟩
  | none => ⟨b.name, false, [], 1⟩

/-- `for i, r in enumerate(reversed(records), start=1): r.version = i` on a
newest-first list: the head gets `n = length`, the last gets 1. -/
def assignVersions (n : Nat) : List BackupRecord → List BackupRecord
  | [] => []
  | r :: rs => { r with version := n } :: assignVersions (n - 1) rs

/-- `list_backups(emulator, game_id)`: glob the zips, newest (largest
timestamp stem) first — `sorted(..., reverse=True)` — skip entries whose
sidecar is missing, and assign positional versions (oldest = 1). -/
def list_backups (store : List StoredBackup) : List BackupRecord :=
  let sorted := pySorted (fun a b => strLt b.name a.name) (store.filter (·.meta.isSome))
  let recs := sorted.map toRecord
  assignVersions recs.length recs

/-- `create_backup(saves)`, traced to its failure point.  The state (the
backup store of the game) is returned alongside the outcome, so that the
side effects performed *before* an exception are visible. -/
def create_backup (store : List StoredBackup) (saves : List GameSave) :
    List StoredBackup × Except PyErr BackupRecord :=
  match saves with
  | [] =>
    -- `raise ValueError("No saves to back up")`
    (store, .error .valueError)
  | ref :: _ =>
    -- lines 58-62 read ref.emulator / game_id / game_name / platform / crc32
    let _emulator := ref.emulator
    let _game_id := ref.game_id
    let _game_name := ref.game_name
    let _platform := ref.platform
    let _crc32 := ref.crc32
    -- line 63: `emu_data_path = ref.data_path`.  The GameSave dataclass
    -- defines no attribute `data_path`, so Python raises AttributeError
    -- here — before the game directory (line 82), the ZIP (line 89), the
    -- sidecar (line 137), the version computation (lines 140-142) and the
    -- auto-rotation (line 159).  Everything after this line is unreachable.
    (store, .error .attributeError)

/-- `rotate_backups(emulator, game_id)`: among the non-pinned records of
the newest-first listing, delete every one beyond `max_backups`
(`delete_backup` removes the zip and the sidecar of each). -/
def rotate_backups (max_backups : Nat) (store : List StoredBackup) :
    List StoredBackup × Nat :=
  let records := list_backups store
  let non_pinned := records.filter (fun r => !r.is_pinned)
  if non_pinned.length > max_backups then
    let to_delete := non_pinned.drop max_backups
    (store.filter (fun b => !(to_delete.any (fun r => r.name == b.name))),
     to_delete.length)
  else (store, 0)

/-- **C3** — for every non-empty list of `GameSave` values `create_backup`
raises `AttributeError` (reading the undefined `saves[0].data_path`)
before touching the store: the backup tree is unchanged and `list_backups`
afterwards returns exactly what it returned before. -/
theorem c3_create_backup_attribute_error (store : List StoredBackup)
    (saves : List GameSave) (h : saves ≠ []) :
    create_backup store saves = (store, .error .attributeError) ∧
    list_backups (create_backup store saves).1 = list_backups store := by
  cases saves with
  | nil => exact absurd rfl h
  | cons ref rest => exact ⟨rfl, rfl⟩

/-- **C3 (witness)** — the theorem applied to a concrete one-element save
list over an empty backup tree. -/
theorem c3_create_backup_attribute_error_witness :
    ([(⟨"pcsx2".data, "Game".data, "SLUS-21005".data, [], "PS2".data, []⟩ : GameSave)] ≠ ([] : List GameSave)) ∧
    create_backup [] [⟨"pcsx2".data, "Game".data, "SLUS-21005".data, [], "PS2".data, []⟩]
      = ([], .error .attributeError) :=
  ⟨by decide,
   (c3_create_backup_attribute_error []
     [⟨"pcsx2".data, "Game".data, "SLUS-21005".data, [], "PS2".data, []⟩]
     (by decide)).1⟩

/-- **C4** — no call of `create_backup` ever returns a `BackupRecord` at
all: with one archive already stored for the game, a new backup attempt
raises `AttributeError` and leaves the store unchanged, so in particular
no record with `version = 1 + count of existing archives` is produced.
(Were line 63 reached past, the version would still be off: lines 140-142
run `list_backups` *after* the new zip and sidecar are written, counting
the new archive itself.) -/
theorem c4_create_backup_version_unreachable :
    create_backup [⟨"2024-01-01_10-00".data, some ⟨false, []⟩⟩]
        [⟨"pcsx2".data, "Game2".data, "SLUS-20002".data, [], "PS2".data, []⟩]
      = ([⟨"2024-01-01_10-00".data, some ⟨false, []⟩⟩], .error .attributeError) := rfl

/-! ### C5 — the rotation invariant -/

/-- The pin flag a stored backup's sidecar carries (`False` without one). -/
def bPinned (b : StoredBackup) : Bool :=
  match b.meta with
  | some mt => mt.is_pinned
  | none => false

/-- A stored backup that `list_backups` lists and that is not pinned. -/
def isListedNonPinned (b : StoredBackup) : Bool := b.meta.isSome && !bPinned b

/-- A stored backup that `list_backups` lists and that is pinned. -/
def isPinnedArchive (b : StoredBackup) : Bool := b.meta.isSome && bPinned b

/-- The identity-relevant part of a record: name and pin flag. -/
def recProj (r : BackupRecord) : PyStr × Bool := (r.name, r.is_pinned)

/-- The identity-relevant part of a stored backup. -/
def entryProj (b : StoredBackup) : PyStr × Bool := (b.name, bPinned b)

theorem assignVersions_map_recProj (n : Nat) (l : List BackupRecord) :
    (assignVersions n l).map recProj = l.map recProj := by
  induction l generalizing n with
  | nil => rfl
  | cons r rs ih => simp [assignVersions, recProj, ih]

theorem recProj_toRecord (b : StoredBackup) : recProj (toRecord b) = entryProj b := by
  cases hb : b.meta <;> simp [toRecord, recProj, entryProj, bPinned, hb]

theorem list_backups_proj_perm (s : List StoredBackup) :
    ((list_backups s).map recProj).Perm
      ((s.filter (·.meta.isSome)).map entryProj) := by
  unfold list_backups
  rw [assignVersions_map_recProj, List.map_map]
  have hfun : recProj ∘ toRecord = entryProj := funext recProj_toRecord
  rw [hfun]
  exact (pySorted_perm _ _).map entryProj

theorem countNP_eq (s : List StoredBackup) :
    ((list_backups s).filter (fun r => !r.is_pinned)).length
      = s.countP isListedNonPinned := by
  rw [← List.countP_eq_length_filter]
  have h1 : List.countP (fun r => !r.is_pinned) (list_backups s)
      = List.countP (fun x : PyStr × Bool => !x.2) ((list_backups s).map recProj) := by
    rw [List.countP_map]; rfl
  rw [h1, List.Perm.countP_eq _ (list_backups_proj_perm s), List.countP_map,
    List.countP_filter]
  exact List.countP_congr fun b _ => by
    cases hb : b.meta <;> simp [isListedNonPinned, bPinned, hb, Function.comp, entryProj]

theorem mem_listed_of_entry {s : List StoredBackup} {b : StoredBackup}
    (hb : b ∈ s) (hsome : b.meta.isSome = true) :
    ∃ r ∈ list_backups s, recProj r = entryProj b := by
  have h1 : entryProj b ∈ (s.filter (·.meta.isSome)).map entryProj :=
    List.mem_map.mpr ⟨b, List.mem_filter.mpr ⟨hb, hsome⟩, rfl⟩
  have h2 : entryProj b ∈ (list_backups s).map recProj :=
    (list_backups_proj_perm s).mem_iff.mpr h1
  obtain ⟨r, hr, heq⟩ := List.mem_map.mp h2
  exact ⟨r, hr, heq⟩

theorem entry_of_listed {s : List StoredBackup} {r : BackupRecord}
    (hr : r ∈ list_backups s) :
    ∃ b ∈ s, b.meta.isSome = true ∧ entryProj b = recProj r := by
  have h1 : recProj r ∈ (list_backups s).map recProj := List.mem_map.mpr ⟨r, hr, rfl⟩
  have h2 := (list_backups_proj_perm s).mem_iff.mp h1
  obtain ⟨b, hbf, heq⟩ := List.mem_map.mp h2
  obtain ⟨hb, hsome⟩ := List.mem_filter.mp hbf
  exact ⟨b, hb, hsome, heq⟩

/-- A listed non-pinned survivor of a rotation with retention `K` is one of
the `K` newest non-pinned records (its name occurs among their names). -/
theorem rotate_keep_name_mem (store : List StoredBackup) (K : Nat) {b : StoredBackup}
    (hb : b ∈ store) (hlnp : isListedNonPinned b = true)
    (hkb : (!((((list_backups store).filter (fun r => !r.is_pinned)).drop K).any
        (fun r => r.name == b.name))) = true) :
    b.name ∈ ((((list_backups store).filter (fun r => !r.is_pinned)).take K).map
        (fun r => r.name)) := by
  rw [isListedNonPinned, Bool.and_eq_true] at hlnp
  obtain ⟨hsome, hnpin⟩ := hlnp
  obtain ⟨r, hr, hproj⟩ := mem_listed_of_entry hb hsome
  obtain ⟨hname, hpin⟩ := Prod.mk.injEq .. ▸ hproj
  have hrnp : r ∈ (list_backups store).filter (fun r => !r.is_pinned) := by
    refine List.mem_filter.mpr ⟨hr, ?_⟩
    rw [hpin]
    exact hnpin
  rw [← List.take_append_drop K ((list_backups store).filter (fun r => !r.is_pinned))]
    at hrnp
  rcases List.mem_append.mp hrnp with htk | hdr
  · exact List.mem_map.mpr ⟨r, htk, hname⟩
  · exfalso
    have hany : (((list_backups store).filter (fun r => !r.is_pinned)).drop K).any
        (fun r => r.name == b.name) = true :=
      List.any_eq_true.mpr ⟨r, hdr, by rw [hname]; exact beq_self_eq_true _⟩
    rw [hany] at hkb
    exact absurd hkb (by decide)

/-- At most `K` listed non-pinned entries survive a rotation with
retention `K` (given distinct archive names). -/
theorem rotate_count_bound (store : List StoredBackup) (K : Nat)
    (hnd : (store.map (·.name)).Nodup) :
    (store.filter (fun b => isListedNonPinned b &&
        !((((list_backups store).filter (fun r => !r.is_pinned)).drop K).any
          (fun r => r.name == b.name)))).length ≤ K := by
  have hsl : List.Sublist (store.filter (fun b => isListedNonPinned b &&
      !((((list_backups store).filter (fun r => !r.is_pinned)).drop K).any
        (fun r => r.name == b.name)))) store := List.filter_sublist store
  have hmapnd := List.Nodup.sublist (hsl.map (·.name)) hnd
  have hsub : (store.filter (fun b => isListedNonPinned b &&
      !((((list_backups store).filter (fun r => !r.is_pinned)).drop K).any
        (fun r => r.name == b.name)))).map (·.name)
      ⊆ ((((list_backups store).filter (fun r => !r.is_pinned)).take K).map
        (fun r => r.name)) := by
    intro x hx
    obtain ⟨b, hbl, rfl⟩ := List.mem_map.mp hx
    obtain ⟨hbs, hq⟩ := List.mem_filter.mp hbl
    rw [Bool.and_eq_true] at hq
    exact rotate_keep_name_mem store K hbs hq.1 hq.2
  have hle := (List.Nodup.subperm hmapnd hsub).length_le
  rw [List.length_map, List.length_map, List.length_take] at hle
  exact le_trans hle (min_le_left _ _)

/-- **C5** — Rotation invariant: whatever the state of the backup tree of
a game (with distinct archive names, as a directory listing guarantees),
after `rotate_backups` with retention `K` runs, at most `K` non-pinned
archives are listed, and every pinned archive survives untouched. -/
theorem c5_rotation_invariant (store : List StoredBackup) (K : Nat)
    (hnd : (store.map (·.name)).Nodup) :
    ((list_backups (rotate_backups K store).1).filter (fun r => !r.is_pinned)).length ≤ K ∧
    ∀ b ∈ store, isPinnedArchive b = true → b ∈ (rotate_backups K store).1 := by
  by_cases hgt : ((list_backups store).filter (fun r => !r.is_pinned)).length > K
  · have hrot : (rotate_backups K store).1
        = store.filter (fun b =>
            !((((list_backups store).filter (fun r => !r.is_pinned)).drop K).any
              (fun r => r.name == b.name))) := by
      simp only [rotate_backups]
      rw [if_pos hgt]
    constructor
    · rw [hrot, countNP_eq, List.countP_filter, List.countP_eq_length_filter]
      exact rotate_count_bound store K hnd
    · intro b hb hpa
      rw [hrot]
      refine List.mem_filter.mpr ⟨hb, ?_⟩
      rw [isPinnedArchive, Bool.and_eq_true] at hpa
      obtain ⟨hsome, hpin⟩ := hpa
      show (!((((list_backups store).filter (fun r => !r.is_pinned)).drop K).any
          (fun r => r.name == b.name))) = true
      cases hany : (((list_backups store).filter (fun r => !r.is_pinned)).drop K).any
          (fun r => r.name == b.name) with
      | false => rfl
      | true =>
        exfalso
        obtain ⟨r, hrD, hbeq⟩ := List.any_eq_true.mp hany
        have hrname : r.name = b.name := by simpa using hbeq
        have hrnp : r ∈ (list_backups store).filter (fun r => !r.is_pinned) :=
          List.drop_subset K _ hrD
        obtain ⟨hrl, hrpin⟩ := List.mem_filter.mp hrnp
        obtain ⟨b', hb', hsome', hproj'⟩ := entry_of_listed hrl
        obtain ⟨hname', hpin'⟩ := Prod.mk.injEq .. ▸ hproj'
        have hbb : b' = b := List.inj_on_of_nodup_map hnd hb' hb (by rw [hname', hrname])
        rw [hbb] at hpin'
        rw [hpin] at hpin'
        rw [← hpin'] at hrpin
        exact absurd hrpin (by decide)
  · have hrot : (rotate_backups K store).1 = store := by
      simp only [rotate_backups]
      rw [if_neg hgt]
    rw [hrot]
    exact ⟨Nat.le_of_not_lt hgt, fun b hb _ => hb⟩

/-- The store used by the C5 witness: three archives, the middle one
pinned. -/
def c5Store : List StoredBackup :=
  [⟨"2024-03-01_10-00".data, some ⟨false, []⟩⟩,
   ⟨"2024-02-01_10-00".data, some ⟨true, "Before Final Boss".data⟩⟩,
   ⟨"2024-01-01_10-00".data, some ⟨false, []⟩⟩]

/-- **C5 (witness)** — the invariant applied to `c5Store` with
retention 1. -/
theorem c5_rotation_invariant_witness :
    (c5Store.map (·.name)).Nodup ∧
    (((list_backups (rotate_backups 1 c5Store).1).filter
        (fun r => !r.is_pinned)).length ≤ 1 ∧
      ∀ b ∈ c5Store, isPinnedArchive b = true → b ∈ (rotate_backups 1 c5Store).1) :=
  ⟨by decide, c5_rotation_invariant c5Store 1 (by decide)⟩

/-! ## `app/core/restore.py` (`RestoreManager`) -/

/-- A detected emulator installation, as the scanner reports it
(`emu.name`, `emu.data_path`). -/
structure DetectedEmu where
  name : PyStr
  data_path : PyStr

/-- One element of the sidecar's `backup_paths` list. -/
structure ArtifactEntry where
  source : PyStr
  type_tag : PyStr
  zip_path : PyStr
  is_dir : Bool

/-- The sidecar fields `restore_backup` reads. -/
structure SidecarInfo where
  emulator : PyStr
  emulator_data_path : PyStr
  backup_paths : List ArtifactEntry

/-- `_resolve_emu_data_path(info, detected_emulators)`: first a detected
installation with a matching emulator name, then the stored portable
string (resolved), else `None`.  An empty `detected` list models both
`None` and `[]` (both falsy). -/
def resolve_emu_data_path (m : Machine) (info : SidecarInfo)
    (detected : List DetectedEmu) : Option PyStr :=
  match detected.find? (fun e => e.name == info.emulator) with
  | some e => some e.data_path
  | none =>
    if info.emulator_data_path ≠ [] then some (resolve_path m info.emulator_data_path)
    else none

/-- `restore_backup(record, force)`, traced to its failure point.  The
missing-zip / missing-sidecar guards return their message lists;
otherwise the loop over `backup_paths` starts and its first statement is
`source_path = resolve_path(bp["source"], emu_data_path)` — but
`path_resolver.resolve_path` accepts exactly one argument, so the call
raises `TypeError`.  The call sits *outside* the per-artifact
`try`/`except`, so the error is not collected and the function raises. -/
def restore_backup (m : Machine) (detected : List DetectedEmu)
    (zip_exists meta_exists : Bool) (info : SidecarInfo) (_force : Bool) :
    Except PyErr (List PyStr) :=
  if !zip_exists then .ok ["Backup zip not found".data]
  else if !meta_exists then .ok ["Backup metadata not found".data]
  else
    let _emu_data := resolve_emu_data_path m info detected
    match info.backup_paths with
    | [] => .ok []
    | _ :: _ =>
      -- `resolve_path(bp["source"], emu_data_path)` with a one-parameter
      -- `resolve_path`: TypeError, raised before the `try` block.
      .error .typeError

/-- **C2** — the code's `resolve_path` does not handle `${EMU_DATA}`: the
placeholder is not in the table, so (on every machine) a portable string
starting with `${EMU_DATA}` is returned unchanged instead of being
substituted from an override or from the sidecar value; the promised
`emu_data_override` parameter does not exist, and `restore.py`'s two-
argument calls raise `TypeError` (see `restore_backup`). -/
theorem c2_resolve_path_ignores_emu_data (m : Machine) :
    resolve_path m "${EMU_DATA}/memcards/Mcd001.ps2".data
      = "${EMU_DATA}/memcards/Mcd001.ps2".data := by
  apply resolveScan_nomatch
  intro e he
  have hf : e.1 ∈ fourPlaceholders := mem_entries_fst (mem_placeholder_map.mp he)
  simp only [fourPlaceholders, List.mem_cons, List.not_mem_nil, or_false] at hf
  rcases hf with h | h | h | h <;> rw [h] <;> decide

/-- **C9** — with the zip and the sidecar present and at least one
artifact entry, `restore_backup` raises `TypeError` instead of returning
a collected error list: the two-argument `resolve_path` call precedes the
per-artifact `try` block, so no artifact is restored and no error list is
produced.  (Concrete failing input: one single-file artifact.) -/
theorem c9_restore_backup_raises :
    restore_backup
      ⟨"/home/u/Documents".data, "/home/u".data, "/home/u".data, "/home/u".data⟩
      []
      true true
      ⟨"pcsx2".data, "${DOCUMENTS}/PCSX2".data,
        [⟨"${EMU_DATA}/memcards/Mcd001.ps2".data, "memcard".data,
          "memcard/Mcd001.ps2".data, false⟩]⟩
      false
      = .error .typeError := rfl

/-! ## `app/core/sync.py` (`SyncManager.push`)

The state relevant to one `(emulator, game_id)` pair: whether a sync
folder is configured, the local backup listing (newest first), the
contents of `{sync_root}/{emulator}/{game_id}` (folder name ↦ tree), and
the game's entry of `sync_manifest.json`.  `_read_backup_crc32` parses
`backup_info.json` inside an archive directory; that JSON lookup is
abstracted as a function argument `readCrc` (the source returns `""`
when the file is missing or unparsable). -/

/-- One local backup as `push` consumes it (`latest.folder_name`,
and the tree at `latest.backup_path`). -/
structure SyncArchive where
  folder_name : PyStr
  node : FSNode
  deriving DecidableEq

/-- `SyncManifestEntry` (dataclass; `game_id`/`emulator` are fixed by the
key we model). -/
structure SyncManifestEntry where
  last_sync_time : PyStr
  source_machine : PyStr
  file_hash : PyStr
  relative_path : PyStr
  crc32 : PyStr
  deriving DecidableEq

/-- The sync-relevant state of one game. -/
structure SyncState where
  configured : Bool
  backups : List SyncArchive
  remote : List (PyStr × FSNode)
  manifest : Option SyncManifestEntry
  deriving DecidableEq

/-- `SyncResult` (dataclass). -/
structure SyncResult where
  pushed : Nat
  pulled : Nat
  conflicts : List ConflictInfo
  errors : List PyStr
  crc32_warnings : List PyStr
  deriving DecidableEq

/-- Contents of the remote game directory at a folder name. -/
def lookupRemote (rs : List (PyStr × FSNode)) (k : PyStr) : Option FSNode :=
  (rs.find? (fun p => p.1 == k)).map (·.2)

/-- `dest_dir.mkdir(parents=True, exist_ok=True)`: creates the directory
when absent; `exist_ok` tolerates an existing directory but an existing
regular file still raises `FileExistsError`. -/
def mkdirExistOk (rs : List (PyStr × FSNode)) (k : PyStr) :
    Except PyErr (List (PyStr × FSNode)) :=
  match lookupRemote rs k with
  | none => .ok (rs ++ [(k, .dir 0 [])])
  | some (.dir _ _) => .ok rs
  | some (.file _ _) => .error .fileExistsError

/-- `shutil.rmtree(dest_dir)`. -/
def removeRemote (rs : List (PyStr × FSNode)) (k : PyStr) : List (PyStr × FSNode) :=
  rs.filter (fun p => !(p.1 == k))

/-- `any(dest_dir.iterdir())`: a (well-formed) directory has an immediate
child iff it has any recorded descendant. -/
def anyIterdir : FSNode → Bool
  | .dir _ es => !es.isEmpty
  | .file _ _ => false

/-- The CRC32 warning block at the top of `push` (`_read_backup_crc32` on
the latest local backup, compared against the manifest's recorded remote
CRC by `check_crc32_mismatch`; both lower-cased, empty values compare OK). -/
def pushWarns (readCrc : FSNode → PyStr) (s : SyncState) : List PyStr :=
  match s.backups with
  | [] => []
  | latest :: _ =>
    let local_crc := readCrc latest.node
    let remote_crc :=
      match s.manifest with
      | some e => e.crc32
      | none => []
    if local_crc ≠ [] ∧ remote_crc ≠ [] ∧ pyLower remote_crc ≠ pyLower local_crc then
      ["CRC32 mismatch".data]
    else []

/-- The copy tail of `push`: `if dest_dir.exists(): shutil.rmtree(dest_dir)`
(it exists — just created), then `shutil.copytree(latest.backup_path,
dest_dir)` and the manifest update.  `copytree` from a regular file raises
`NotADirectoryError`, caught by the surrounding `except`, which records
the message — after the rmtree already removed the remote copy. -/
def pushCopy (readCrc : FSNode → PyStr) (machine_id now emulator game_id : PyStr)
    (warns : List PyStr) (s1 : SyncState) (latest : SyncArchive) :
    Except PyErr (SyncState × SyncResult) :=
  let removed := removeRemote s1.remote latest.folder_name
  match latest.node with
  | .dir mt es =>
    .ok ({ s1 with
            remote := removed ++ [(latest.folder_name, .dir mt es)],
            manifest := some
              ⟨now, machine_id, dir_sha256 (.dir mt es),
               emulator ++ '/' :: game_id ++ '/' :: latest.folder_name,
               readCrc (.dir mt es)⟩ },
         ⟨1, 0, [], [], warns⟩)
  | .file _ _ =>
    .ok ({ s1 with remote := removed }, ⟨0, 0, [], ["Push failed".data], warns⟩)

/-- `SyncManager.push(emulator, game_id)`. -/
def push (readCrc : FSNode → PyStr) (machine_id now emulator game_id : PyStr)
    (s : SyncState) : Except PyErr (SyncState × SyncResult) :=
  if !s.configured then
    .ok (s, ⟨0, 0, [], ["Sync folder not configured".data], []⟩)
  else
    match s.backups with
    | [] => .ok (s, ⟨0, 0, [], [], []⟩)
    | latest :: _ =>
      let warns := pushWarns readCrc s
      match mkdirExistOk s.remote latest.folder_name with
      | .error e => .error e
      | .ok remote1 =>
        let s1 : SyncState := { s with remote := remote1 }
        let destNode := (lookupRemote remote1 latest.folder_name).getD (.dir 0 [])
        if anyIterdir destNode then
          if dir_sha256 latest.node = dir_sha256 destNode then
            .ok (s1, ⟨0, 0, [], [], warns⟩)
          else
            match detect latest.folder_name latest.folder_name game_id emulator []
                (some latest.node) (some destNode) with
            | some c =>
              if c.is_real_conflict then .ok (s1, ⟨0, 0, [c], [], warns⟩)
              else pushCopy readCrc machine_id now emulator game_id warns s1 latest
            | none => pushCopy readCrc machine_id now emulator game_id warns s1 latest
        else pushCopy readCrc machine_id now emulator game_id warns s1 latest

/-- Used to read a detected conflict out of an `Option` without naming
its hash fields. -/
def dummyConflict : ConflictInfo := ⟨[], [], [], [], [], 0, 0, [], [], []⟩

/-- **C8** — Push conflict atomicity: when a non-empty remote archive
directory exists for the latest local backup, the directory hashes
differ, and `detect` reports a real conflict, `push` returns exactly that
conflict (zero pushed, no errors) and the state — remote tree and
manifest included — is exactly as before the call. -/
theorem c8_push_conflict_state_unchanged (readCrc : FSNode → PyStr)
    (mid now emu gid : PyStr) (s : SyncState) (latest : SyncArchive)
    (rest : List SyncArchive) (rmt : Int) (res : List DirEntry) (ci : ConflictInfo)
    (hc : s.configured = true)
    (hb : s.backups = latest :: rest)
    (hl : lookupRemote s.remote latest.folder_name = some (.dir rmt res))
    (hne : res ≠ [])
    (hh : ¬ dir_sha256 latest.node = dir_sha256 (.dir rmt res))
    (hd : detect latest.folder_name latest.folder_name gid emu []
        (some latest.node) (some (.dir rmt res)) = some ci)
    (hreal : ci.is_real_conflict = true) :
    push readCrc mid now emu gid s = .ok (s, ⟨0, 0, [ci], [], pushWarns readCrc s⟩) := by
  have hmk : mkdirExistOk s.remote latest.folder_name = .ok s.remote := by
    rw [mkdirExistOk, hl]
  have hie : res.isEmpty = false := by
    cases res with
    | nil => exact absurd rfl hne
    | cons a l => rfl
  simp only [push, hc, hb, hmk, hl, hd, hreal, hie, anyIterdir, Option.getD_some,
    Bool.not_true, Bool.not_false, Bool.false_eq_true, if_false, if_true, hh,
    ite_false, ite_true]
  have hs : SyncState.mk true (latest :: rest) s.remote s.manifest = s := by
    rw [← hc, ← hb]
  rw [hs]

/-- The local archive tree of the C8 witness (one file `f` = byte 1). -/
def c8Local : FSNode := .dir 0 [⟨[['f']], true, [1], 0⟩]

/-- The diverged remote archive tree of the C8 witness (`f` = byte 2). -/
def c8Remote : FSNode := .dir 0 [⟨[['f']], true, [2], 0⟩]

def c8Name : PyStr := "2024-01-01_00-00".data

/-- The sync state of the C8 witness: one local backup, a diverged remote
copy under the same folder name, no manifest entry. -/
def c8State : SyncState := ⟨true, [⟨c8Name, c8Local⟩], [(c8Name, c8Remote)], none⟩

/-- The conflict `detect` reports for the C8 witness. -/
def c8Detect : Option ConflictInfo :=
  detect c8Name c8Name "SLUS-21005".data "pcsx2".data [] (some c8Local) (some c8Remote)

theorem lookupRemote_removed_append (rs : List (PyStr × FSNode)) (k : PyStr) (v : FSNode) :
    lookupRemote (removeRemote rs k ++ [(k, v)]) k = some v := by
  induction rs with
  | nil => simp [removeRemote, lookupRemote, List.find?]
  | cons p ps ih =>
    cases hp : (p.1 == k) with
    | true =>
      have h0 : removeRemote (p :: ps) k = removeRemote ps k := by
        simp [removeRemote, List.filter_cons, hp]
      rw [h0]; exact ih
    | false =>
      have h0 : removeRemote (p :: ps) k = p :: removeRemote ps k := by
        simp [removeRemote, List.filter_cons, hp]
      rw [h0]
      show (List.find? (fun q => q.1 == k) (p :: (removeRemote ps k ++ [(k, v)]))).map (·.2)
        = some v
      rw [List.find?_cons_of_neg _ (by simp [hp])]
      exact ih

/-- If `pushCopy` reports one pushed archive, the source node was a
directory and the new state rewrote the remote entry and the manifest. -/
theorem pushCopy_pushed (readCrc : FSNode → PyStr) (mid now emu gid : PyStr)
    (warns : List PyStr) (s0 : SyncState) (latest : SyncArchive)
    (s1 : SyncState) (r1 : SyncResult)
    (h : pushCopy readCrc mid now emu gid warns s0 latest = .ok (s1, r1))
    (h2 : r1.pushed = 1) :
    ∃ mt es, latest.node = FSNode.dir mt es ∧
      s1 = { s0 with
              remote := removeRemote s0.remote latest.folder_name
                ++ [(latest.folder_name, FSNode.dir mt es)],
              manifest := some ⟨now, mid, dir_sha256 (FSNode.dir mt es),
                emu ++ '/' :: gid ++ '/' :: latest.folder_name,
                readCrc (FSNode.dir mt es)⟩ } := by
  cases hnode : latest.node with
  | file c mt =>
    exfalso
    rw [pushCopy, hnode] at h
    obtain ⟨hs, hr⟩ := Prod.mk.injEq .. ▸ (Except.ok.inj h)
    rw [← hr] at h2
    simp at h2
  | dir mt es =>
    rw [pushCopy, hnode] at h
    obtain ⟨hs, hr⟩ := Prod.mk.injEq .. ▸ (Except.ok.inj h)
    exact ⟨mt, es, rfl, hs.symm⟩

/-- Inversion of `push`: a call reporting one pushed archive went through
the copy branch — the sync folder was configured, a newest backup exists,
its tree is a directory, and the new state replaced the remote entry for
its folder name and the manifest entry. -/
theorem push_pushed_state (readCrc : FSNode → PyStr) (mid now emu gid : PyStr)
    (s s1 : SyncState) (r1 : SyncResult)
    (h1 : push readCrc mid now emu gid s = .ok (s1, r1))
    (h2 : r1.pushed = 1) :
    s.configured = true ∧
    ∃ latest rest mt es remote1,
      s.backups = latest :: rest ∧ latest.node = FSNode.dir mt es ∧
      mkdirExistOk s.remote latest.folder_name = .ok remote1 ∧
      s1 = { s with
              remote := removeRemote remote1 latest.folder_name
                ++ [(latest.folder_name, FSNode.dir mt es)],
              manifest := some ⟨now, mid, dir_sha256 (FSNode.dir mt es),
                emu ++ '/' :: gid ++ '/' :: latest.folder_name,
                readCrc (FSNode.dir mt es)⟩ } := by
  have hzero : ∀ z : SyncState, ∀ c : List ConflictInfo, ∀ e w : List PyStr,
      Except.ok (α := SyncState × SyncResult) (ε := PyErr) (z, ⟨0, 0, c, e, w⟩)
        = .ok (s1, r1) → False := by
    intro z c e w hx
    obtain ⟨hs, hr⟩ := Prod.mk.injEq .. ▸ (Except.ok.inj hx)
    rw [← hr] at h2
    simp at h2
  simp only [push] at h1
  split at h1
  · exact absurd h1 (fun hx => hzero _ _ _ _ hx)
  · rename_i hcfg
    split at h1
    · exact absurd h1 (fun hx => hzero _ _ _ _ hx)
    · rename_i latest rest hbk
      refine ⟨by revert hcfg; cases s.configured <;> simp, ?_⟩
      split at h1
      · exact absurd h1 (by simp)
      · rename_i remote1 hmk
        have hfin : pushCopy readCrc mid now emu gid (pushWarns readCrc s)
              { s with remote := remote1 } latest = .ok (s1, r1) →
            ∃ latest' rest' mt es remote1',
              s.backups = latest' :: rest' ∧ latest'.node = FSNode.dir mt es ∧
              mkdirExistOk s.remote latest'.folder_name = .ok remote1' ∧
              s1 = { s with
                      remote := removeRemote remote1' latest'.folder_name
                        ++ [(latest'.folder_name, FSNode.dir mt es)],
                      manifest := some ⟨now, mid, dir_sha256 (FSNode.dir mt es),
                        emu ++ '/' :: gid ++ '/' :: latest'.folder_name,
                        readCrc (FSNode.dir mt es)⟩ } := by
          intro hx
          obtain ⟨mt, es, hnode, hs1⟩ := pushCopy_pushed _ _ _ _ _ _ _ _ _ _ hx h2
          exact ⟨latest, rest, mt, es, remote1, hbk, hnode, hmk, hs1⟩
        split at h1
        · split at h1
          · exact absurd h1 (fun hx => hzero _ _ _ _ hx)
          · split at h1
            · rename_i c hdet
              split at h1
              · exact absurd h1 (fun hx => hzero _ _ _ _ hx)
              · exact hfin h1
            · exact hfin h1
        · exact hfin h1

/-- Forward evaluation of `push` when the remote copy of the latest local
backup already exists with identical (hence hash-equal) content: the
in-sync branch returns zero pushed, zero conflicts, and the state is
untouched. -/
theorem push_in_sync (readCrc : FSNode → PyStr) (mid now emu gid : PyStr)
    (s : SyncState) (latest : SyncArchive) (rest : List SyncArchive)
    (mt : Int) (es : List DirEntry)
    (hc : s.configured = true)
    (hb : s.backups = latest :: rest)
    (hn : latest.node = FSNode.dir mt es)
    (hne : es ≠ [])
    (hl : lookupRemote s.remote latest.folder_name = some (FSNode.dir mt es)) :
    push readCrc mid now emu gid s = .ok (s, ⟨0, 0, [], [], pushWarns readCrc s⟩) := by
  have hmk : mkdirExistOk s.remote latest.folder_name = .ok s.remote := by
    rw [mkdirExistOk, hl]
  have hie : es.isEmpty = false := by
    cases es with
    | nil => exact absurd rfl hne
    | cons a l => rfl
  have hhash : dir_sha256 latest.node = dir_sha256 (FSNode.dir mt es) := by rw [hn]
  simp only [push, hc, hb, hmk, hl, Option.getD_some, anyIterdir, hie, Bool.not_true,
    Bool.not_false, Bool.false_eq_true, if_false, if_true, hhash, eq_self_iff_true,
    ite_true]
  have hs : SyncState.mk true (latest :: rest) s.remote s.manifest = s := by
    rw [← hc, ← hb]
  rw [hs]

/-- **C7 (amended)** — Push idempotence as far as the code provides it:
if a `push` actually copied the latest local archive (`pushed = 1`) and
that archive is a **non-empty** directory, then a second `push` with no
changes in between reports zero pushed, zero conflicts (and no warnings),
leaving the state untouched.  (The unamended universal claim fails for an
empty archive directory — `any(dest_dir.iterdir())` is false, so the
in-sync hash check is skipped and the copy runs again; see the
counterexample.) -/
theorem c7_push_idempotent_amended (readCrc : FSNode → PyStr)
    (mid now now2 emu gid : PyStr) (s s1 : SyncState) (r1 : SyncResult)
    (latest : SyncArchive) (rest : List SyncArchive) (mt : Int) (es : List DirEntry)
    (hb : s.backups = latest :: rest)
    (hn : latest.node = FSNode.dir mt es)
    (hne : es ≠ [])
    (h1 : push readCrc mid now emu gid s = .ok (s1, r1))
    (h2 : r1.pushed = 1) :
    push readCrc mid now2 emu gid s1 = .ok (s1, ⟨0, 0, [], [], []⟩) := by
  obtain ⟨hcfg, latest', rest', mt', es', remote1, hb', hn', hmk', hs1⟩ :=
    push_pushed_state readCrc mid now emu gid s s1 r1 h1 h2
  rw [hb] at hb'
  obtain ⟨hl1, hl2⟩ := List.cons.injEq .. ▸ hb'
  subst hl1
  rw [hn] at hn'
  obtain ⟨hm1, hm2⟩ := FSNode.dir.injEq .. ▸ hn'
  subst hm1
  subst hm2
  have hc1 : s1.configured = true := by rw [hs1]; exact hcfg
  have hb1 : s1.backups = latest :: rest := by rw [hs1]; exact hb
  have hlk : lookupRemote s1.remote latest.folder_name = some (FSNode.dir mt es) := by
    rw [hs1]
    exact lookupRemote_removed_append remote1 latest.folder_name (FSNode.dir mt es)
  have hmain := push_in_sync readCrc mid now2 emu gid s1 latest rest mt es
    hc1 hb1 hn hne hlk
  have hw : pushWarns readCrc s1 = [] := by
    rw [hs1]
    simp [pushWarns, hb, hn]
  rw [hw] at hmain
  exact hmain

/-- The state `push` leaves behind (input returned unchanged when the
call raised). -/
def afterPush (readCrc : FSNode → PyStr) (mid now emu gid : PyStr)
    (s : SyncState) : SyncState :=
  match push readCrc mid now emu gid s with
  | .ok (s1, _) => s1
  | .error _ => s

/-- The `pushed` counter a `push` call reports. -/
def pushedOf (readCrc : FSNode → PyStr) (mid now emu gid : PyStr)
    (s : SyncState) : Nat :=
  match push readCrc mid now emu gid s with
  | .ok (_, r) => r.pushed
  | .error _ => 0

/-- The C7 counterexample state: one local backup whose archive directory
is empty. -/
def c7EmptyState : SyncState :=
  ⟨true, [⟨"2024-01-01_00-00".data, .dir 0 []⟩], [], none⟩

/-- **C7 (counterexample)** — with an *empty* latest archive directory and
no local changes between the calls, the second `push` reports `pushed = 1`
again, not zero: `any(dest_dir.iterdir())` is false for the empty remote
copy, so the in-sync hash check is skipped and the copy re-runs. -/
theorem c7_push_idempotence_counterexample :
    pushedOf (fun _ => []) "m1".data "t1".data "pcsx2".data "SLUS-21005".data
        c7EmptyState = 1 ∧
    (afterPush (fun _ => []) "m1".data "t1".data "pcsx2".data "SLUS-21005".data
        c7EmptyState).backups = c7EmptyState.backups ∧
    pushedOf (fun _ => []) "m1".data "t2".data "pcsx2".data "SLUS-21005".data
        (afterPush (fun _ => []) "m1".data "t1".data "pcsx2".data "SLUS-21005".data
          c7EmptyState) = 1 := by
  refine ⟨by decide, by decide, by decide⟩

/-- The C7 witness state: one local backup holding one file. -/
def c7State : SyncState :=
  ⟨true, [⟨"2024-01-01_00-00".data, .dir 0 [⟨[['f']], true, [1], 0⟩]⟩], [], none⟩

/-- **C7 (witness)** — the amended idempotence theorem applied to
`c7State`: after a first successful push, the second push is a reported
no-op. -/
theorem c7_push_idempotent_witness :
    push (fun _ => []) "m1".data "t2".data "pcsx2".data "SLUS-21005".data
        (afterPush (fun _ => []) "m1".data "t1".data "pcsx2".data "SLUS-21005".data
          c7State)
      = .ok (afterPush (fun _ => []) "m1".data "t1".data "pcsx2".data
          "SLUS-21005".data c7State, ⟨0, 0, [], [], []⟩) := by
  cases h1 : push (fun _ => []) "m1".data "t1".data "pcsx2".data "SLUS-21005".data
      c7State with
  | error e =>
    have hk : (push (fun _ => []) "m1".data "t1".data "pcsx2".data "SLUS-21005".data
        c7State).isOk = true := by decide
    rw [h1] at hk
    exact absurd hk (by simp [Except.isOk, Except.toBool])
  | ok p =>
    obtain ⟨s1, r1⟩ := p
    have ha : afterPush (fun _ => []) "m1".data "t1".data "pcsx2".data
        "SLUS-21005".data c7State = s1 := by
      unfold afterPush
      rw [h1]
    have h2 : r1.pushed = 1 := by
      have hp : pushedOf (fun _ => []) "m1".data "t1".data "pcsx2".data
          "SLUS-21005".data c7State = 1 := by decide
      unfold pushedOf at hp
      rw [h1] at hp
      exact hp
    rw [ha]
    exact c7_push_idempotent_amended (fun _ => []) "m1".data "t1".data "t2".data
      "pcsx2".data "SLUS-21005".data c7State s1 r1
      ⟨"2024-01-01_00-00".data, .dir 0 [⟨[['f']], true, [1], 0⟩]⟩ [] 0
      [⟨[['f']], true, [1], 0⟩] rfl rfl (by decide) h1 h2

/-- **C8 (witness)** — the atomicity theorem applied to `c8State`: the
push returns the detected conflict and the state is untouched. -/
theorem c8_push_conflict_witness :
    push (fun _ => []) "m1".data "t1".data "pcsx2".data "SLUS-21005".data c8State
      = .ok (c8State, ⟨0, 0, [c8Detect.getD dummyConflict], [],
          pushWarns (fun _ => []) c8State⟩) := by
  cases hdet : c8Detect with
  | none => exact absurd hdet (by decide)
  | some ci =>
    have hci : c8Detect.getD dummyConflict = ci := by rw [hdet]; rfl
    simp only [Option.getD_some]
    exact c8_push_conflict_state_unchanged (fun _ => []) "m1".data "t1".data
      "pcsx2".data "SLUS-21005".data c8State ⟨c8Name, c8Local⟩ [] 0
      [⟨[['f']], true, [2], 0⟩] ci rfl rfl (by decide) (by decide) (by decide)
      hdet (by rw [← hci]; decide)

end EmuSave
